import Mathlib

/-!
Verification of the YOLOverlay model-conversion service
(`model-service/main.py`) against its natural-language specification.

The Python service is shallowly embedded below:
* pure helpers (`compute_model_hash`, `get_hf_download_url`, the storage-key
  construction, the HTTP-status classification of the two downloaders) become
  Lean functions translated line by line from the source;
* the effectful orchestrator `convert_model` becomes a function over an
  explicit `World` (object store contents, clock, transport responses,
  outcomes of the opaque YOLO library calls), returning the HTTP result
  together with the new store and flags recording which effects ran;
* machine integers are `Nat` with explicit `% 2 ^ 32` where overflow matters
  (the SHA-256 core), bytes are `Nat` (values < 256), byte strings are
  `List Nat`.
-/

/-! ### Byte and string helpers -/

/-- Bytes of a string.  The service only ever hashes ASCII parameter
strings, for which UTF-8 bytes coincide with the code points. -/
def strBytes (s : String) : List Nat := s.data.map Char.toNat

/-- Python substring membership `pat in s` (`pat` nonempty in all uses),
on `List Char`. -/
def containsSub (pat : List Char) : List Char → Bool
  | [] => pat.isEmpty
  | c :: rest => pat.isPrefixOf (c :: rest) || containsSub pat rest

/-- Python substring membership on `String`. -/
def strContains (s pat : String) : Bool := containsSub pat.data s.data

/-- Scanner for Python `str.replace`: in copy mode (`0`) it tests the
pattern at the current position, emits the replacement on a match and
switches to skip mode for the rest of the matched pattern; in skip mode
(`k + 1`) it drops the next character.  Left-to-right, non-overlapping,
exactly `str.replace`'s semantics for a nonempty pattern. -/
def replaceAux (pat rep : List Char) : Nat → List Char → List Char
  | _, [] => []
  | Nat.succ k, _ :: rest => replaceAux pat rep k rest
  | 0, c :: rest =>
    if pat.isPrefixOf (c :: rest) then
      rep ++ replaceAux pat rep (pat.length - 1) rest
    else
      c :: replaceAux pat rep 0 rest

/-- Python `s.replace(pat, rep)` for a nonempty `pat`, on `List Char`. -/
def pyReplace (pat rep s : List Char) : List Char := replaceAux pat rep 0 s

/-- Python `s.replace(pat, rep)` on `String`. -/
def strReplace (s pat rep : String) : String := ⟨pyReplace pat.data rep.data s.data⟩

/-! ### SHA-256 (`hashlib.sha256`)

Executable embedding of the digest used by `compute_model_hash`.
Words are `Nat` reduced mod `2 ^ 32`. -/

/-- Reduce to a 32-bit word. -/
def w32 (x : Nat) : Nat := x % 4294967296

/-- Rotate a 32-bit word right by `n` (for `0 < n < 32` and `x < 2 ^ 32`). -/
def rotr32 (n x : Nat) : Nat := w32 ((x >>> n) ||| (x <<< (32 - n)))

def shaCh (x y z : Nat) : Nat := (x &&& y) ^^^ ((x ^^^ 4294967295) &&& z)

def shaMaj (x y z : Nat) : Nat := (x &&& y) ^^^ (x &&& z) ^^^ (y &&& z)

def bigSigma0 (x : Nat) : Nat := rotr32 2 x ^^^ rotr32 13 x ^^^ rotr32 22 x

def bigSigma1 (x : Nat) : Nat := rotr32 6 x ^^^ rotr32 11 x ^^^ rotr32 25 x

def smallSigma0 (x : Nat) : Nat := rotr32 7 x ^^^ rotr32 18 x ^^^ (x >>> 3)

def smallSigma1 (x : Nat) : Nat := rotr32 17 x ^^^ rotr32 19 x ^^^ (x >>> 10)

/-- SHA-256 round constants (fractional cube roots of the first 64 primes). -/
def shaK : List Nat :=
  [1116352408, 1899447441, 3049323471, 3921009573, 961987163, 1508970993,
   2453635748, 2870763221, 3624381080, 310598401, 607225278, 1426881987,
   1925078388, 2162078206, 2614888103, 3248222580, 3835390401, 4022224774,
   264347078, 604807628, 770255983, 1249150122, 1555081692, 1996064986,
   2554220882, 2821834349, 2952996808, 3210313671, 3336571891, 3584528711,
   113926993, 338241895, 666307205, 773529912, 1294757372, 1396182291,
   1695183700, 1986661051, 2177026350, 2456956037, 2730485921, 2820302411,
   3259730800, 3345764771, 3516065817, 3600352804, 4094571909, 275423344,
   430227734, 506948616, 659060556, 883997877, 958139571, 1322822218,
   1537002063, 1747873779, 1955562222, 2024104815, 2227730452, 2361852424,
   2428436474, 2756734187, 3204031479, 3329325298]

/-- Working state of the compression function. -/
structure Sha8 where
  a : Nat
  b : Nat
  c : Nat
  d : Nat
  e : Nat
  f : Nat
  g : Nat
  h : Nat
deriving Repr, DecidableEq

/-- SHA-256 initial hash value (fractional square roots of the first 8 primes). -/
def shaH0 : Sha8 :=
  ⟨1779033703, 3144134277, 1013904242, 2773480762,
   1359893119, 2600822924, 528734635, 1541459225⟩

/-- Big-endian byte decomposition of `x` into `n` bytes. -/
def toBytesBE (n x : Nat) : List Nat :=
  (List.range n).map (fun i => x / 256 ^ (n - 1 - i) % 256)

/-- Split a list into chunks of `n` (`0 < n`); fueled to stay structural. -/
def chunksAux (n : Nat) : Nat → List α → List (List α)
  | _, [] => []
  | 0, _ :: _ => []
  | fuel + 1, c :: rest => (c :: rest).take n :: chunksAux n fuel ((c :: rest).drop n)

/-- Split a list into chunks of `n` elements (`0 < n`), last chunk short. -/
def chunksOf (n : Nat) (l : List α) : List (List α) := chunksAux n l.length l

/-- Pad a byte message to a multiple of 64 bytes: `0x80`, zeros, then the
bit length as 8 big-endian bytes. -/
def shaPad (msg : List Nat) : List Nat :=
  msg ++ [128] ++ List.replicate ((119 - msg.length % 64) % 64) 0
      ++ toBytesBE 8 (8 * msg.length)

/-- Big-endian 32-bit words of a 64-byte block. -/
def blockWords (block : List Nat) : List Nat :=
  (chunksOf 4 block).map (fun b => b.foldl (fun acc c => acc * 256 + c) 0)

/-- Message schedule: extend the 16 block words to 64. -/
def shaSchedule (ws : List Nat) : List Nat :=
  (List.range 48).foldl
    (fun acc _ =>
      acc ++ [w32 (smallSigma1 (acc.getD (acc.length - 2) 0)
                   + acc.getD (acc.length - 7) 0
                   + smallSigma0 (acc.getD (acc.length - 15) 0)
                   + acc.getD (acc.length - 16) 0)])
    ws

/-- One round of the compression function. -/
def shaRound (st : Sha8) (kw : Nat × Nat) : Sha8 :=
  let t1 := w32 (st.h + bigSigma1 st.e + shaCh st.e st.f st.g + kw.1 + kw.2)
  let t2 := w32 (bigSigma0 st.a + shaMaj st.a st.b st.c)
  ⟨w32 (t1 + t2), st.a, st.b, st.c, w32 (st.d + t1), st.e, st.f, st.g⟩

/-- Compress one 64-byte block into the running hash value. -/
def shaCompress (H : Sha8) (block : List Nat) : Sha8 :=
  let st := (shaK.zip (shaSchedule (blockWords block))).foldl shaRound H
  ⟨w32 (H.a + st.a), w32 (H.b + st.b), w32 (H.c + st.c), w32 (H.d + st.d),
   w32 (H.e + st.e), w32 (H.f + st.f), w32 (H.g + st.g), w32 (H.h + st.h)⟩

/-- SHA-256 digest (32 bytes) of a byte message. -/
def sha256 (msg : List Nat) : List Nat :=
  let fin := ((chunksOf 64 (shaPad msg)).foldl shaCompress shaH0)
  [fin.a, fin.b, fin.c, fin.d, fin.e, fin.f, fin.g, fin.h].flatMap (toBytesBE 4)

/-- Lower-case hex digit. -/
def hexDigit (n : Nat) : Char :=
  if n < 10 then Char.ofNat (48 + n) else Char.ofNat (87 + n)

/-- Python `hashlib`'s `hexdigest()` of a byte list. -/
def hexdigest (bytes : List Nat) : String :=
  ⟨bytes.flatMap (fun b => [hexDigit (b / 16), hexDigit (b % 16)])⟩

/-! ### Conversion parameters (`model_params` dict)

`convert_model` builds a `dict` with `str` keys and `str`/`bool` values and
canonicalizes it with `sorted(model_params.items())`, which orders the
`(key, value)` tuples lexicographically.  Values are embedded as `PVal`;
`pvalRank` fixes a total order on them so that the tuple order is a linear
order (Python only ever compares values of equal keys, which cannot occur
for the items of a `dict`, so any total extension is faithful there). -/

inductive PVal where
  | s (v : String)
  | b (v : Bool)
deriving DecidableEq, Repr

/-- Python `repr` of a parameter value (ASCII payloads). -/
def pvalRepr : PVal → String
  | .s v => "\x27" ++ v ++ "\x27"
  | .b true => "True"
  | .b false => "False"

/-- Python `repr` of one `(key, value)` item. -/
def paramRepr (p : String × PVal) : String :=
  "(\x27" ++ p.1 ++ "\x27, " ++ pvalRepr p.2 ++ ")"

/-- Python `str` of a list of items. -/
def paramsStr (ps : List (String × PVal)) : String :=
  "[" ++ String.intercalate ", " (ps.map paramRepr) ++ "]"

/-- Rank injection making the order on parameter values total. -/
def pvalRank : PVal → Nat × String
  | .b false => (0, "")
  | .b true => (1, "")
  | .s v => (2, v)

/-- Sort key of a parameter item: key first, then value, lexicographically. -/
def paramKey (p : String × PVal) : Lex (String × Lex (Nat × String)) :=
  toLex (p.1, toLex (pvalRank p.2))

/-- Order used by `sorted(model_params.items())`. -/
def paramLe (p q : String × PVal) : Prop := paramKey p ≤ paramKey q

instance : DecidableRel paramLe :=
  fun p q => inferInstanceAs (Decidable (paramKey p ≤ paramKey q))

/-- Python `sorted(model_params.items())`. -/
def sortedParams (ps : List (String × PVal)) : List (String × PVal) :=
  List.insertionSort paramLe ps

/-! ### `compute_model_hash` (main.py lines 33-46)

The file is read in 8192-byte chunks, each fed to the running SHA-256
accumulator, then the canonicalized parameter string is fed to the same
accumulator; streamed updates hash the concatenation of the update
payloads. -/

def compute_model_hash (modelBytes : List Nat) (model_params : List (String × PVal)) : String :=
  hexdigest (sha256
    ((chunksOf 8192 modelBytes).flatten
      ++ strBytes (paramsStr (sortedParams model_params))))

/-! ### Content store (`check_model_exists`, `upload_to_s3`)

The R2 bucket is embedded as the list of object keys present; presigning
is an opaque function of the key and the TTL supplied by the environment. -/

/-- Presigned URL TTL (main.py line 30). -/
def PRESIGNED_URL_EXPIRY : Nat := 3600

/-- Key construction of `check_model_exists` (main.py line 51). -/
def checkKey (model_hash : String) : String :=
  "models/" ++ model_hash ++ ".mlpackage.zip"

/-- Key construction of `upload_to_s3` (main.py line 69). -/
def uploadKey (model_hash : String) : String :=
  "models/" ++ model_hash ++ ".mlpackage.zip"

/-- `check_model_exists` (main.py lines 49-64): probe the store for the
derived key; on a hit also presign a fresh URL. -/
def check_model_exists (store : List String) (presign : String → Nat → String)
    (model_hash : String) : Bool × String :=
  let s3_key := checkKey model_hash
  if store.contains s3_key then (true, presign s3_key PRESIGNED_URL_EXPIRY)
  else (false, "")

/-- `upload_to_s3` (main.py lines 67-94): archive, put the object under the
derived key and presign; any exception is caught and surfaced as a 500
with the prefixed detail.  `uploadFailure` is the optional exception text
of the opaque transfer. -/
def upload_to_s3 (store : List String) (presign : String → Nat → String)
    (uploadFailure : Option String) (model_hash : String) :
    Except (Nat × String) (String × List String) :=
  let s3_key := uploadKey model_hash
  match uploadFailure with
  | some e => Except.error (500, "Failed to upload model: " ++ e)
  | none => Except.ok (presign s3_key PRESIGNED_URL_EXPIRY, s3_key :: store)

/-! ### Packaging (`shutil.make_archive`, main.py lines 72-74)

A directory-shaped artifact is a rose tree; `make_archive(base, "zip",
root_dir)` stores the files below `root_dir` under their paths relative to
`root_dir`.  The code passes the artifact directory itself as `root_dir`. -/

mutual
inductive FsTree where
  | file (name : String) (content : List Nat) : FsTree
  | dir (name : String) (children : FsForest) : FsTree
deriving DecidableEq, Repr

inductive FsForest where
  | nil : FsForest
  | cons (t : FsTree) (ts : FsForest) : FsForest
deriving DecidableEq, Repr
end

def FsTree.name : FsTree → String
  | .file n _ => n
  | .dir n _ => n

mutual
/-- Files below a tree, paths relative to the tree's parent directory
prefixed by `pre`. -/
def fsEntries (pre : List String) : FsTree → List (List String × List Nat)
  | .file n c => [(pre ++ [n], c)]
  | .dir n cs => forestEntries (pre ++ [n]) cs

def forestEntries (pre : List String) : FsForest → List (List String × List Nat)
  | .nil => []
  | .cons t ts => fsEntries pre t ++ forestEntries pre ts
end

/-- Archive written by `shutil.make_archive(zip_base, "zip", file_path)`
with `root_dir = file_path`, the artifact directory itself: entries are
the artifact's contents, relative to the artifact directory. -/
def make_archive_entries : FsTree → List (List String × List Nat)
  | .file n c => [([n], c)]
  | .dir _ cs => forestEntries [] cs

/-- Modelled from the spec's words (section 4.3), for comparison with
`make_archive_entries`: archive from the artifact's parent directory with
the artifact's own name as the sole top-level entry. -/
def spec_archive_entries (t : FsTree) : List (List String × List Nat) :=
  fsEntries [] t

/-- First path components of an archive's entries, deduplicated: its
top-level names. -/
def archiveTopLevel (ar : List (List String × List Nat)) : List String :=
  (ar.map (fun e => e.1.headD "")).dedup

/-! ### Source resolvers (main.py lines 97-179) -/

/-- URL rewrite of `download_from_github` (main.py lines 100-103). -/
def github_raw_url (url : String) : String :=
  if strContains url "github.com" then
    let u := strReplace url "github.com" "raw.githubusercontent.com"
    if strContains u "/blob/" then strReplace u "/blob/" "/" else u
  else url

/-- Status classification of `download_from_github` (main.py lines
109-121): `none` means 200, proceed; `some (code, detail)` is the raised
`HTTPException`. -/
def download_from_github_error (status : Nat) : Option (Nat × String) :=
  if status = 401 then some (401, "Authentication failed - check your token")
  else if status = 403 then
    some (403, "Access forbidden - private repository requires a valid token")
  else if status ≠ 200 then
    some (400, "Failed to download model: " ++ toString status)
  else none

/-- The generic any-other-status rule of `download_from_github`
(main.py lines 118-121). -/
def githubGenericError (status : Nat) : Nat × String :=
  (400, "Failed to download model: " ++ toString status)

/-- `get_hf_download_url` (main.py lines 132-139). -/
def get_hf_download_url (url : String) : String :=
  if strContains url "/blob/" then strReplace url "/blob/" "/resolve/" else url

/-- Status classification of `download_from_huggingface` (main.py lines
153-171). -/
def download_from_huggingface_error (status : Nat) : Option (Nat × String) :=
  if status = 401 then some (401, "Authentication failed - check your token")
  else if status = 403 then
    some (403, "Access forbidden - private repository requires a valid token")
  else if status = 404 then
    some (400, "Failed to download model: File not found")
  else if status ≠ 200 then
    some (400, "Failed to download model: HTTP " ++ toString status)
  else none

/-- The generic any-other-status rule of `download_from_huggingface`
(main.py lines 167-171). -/
def huggingfaceGenericError (status : Nat) : Nat × String :=
  (400, "Failed to download model: HTTP " ++ toString status)

/-- Starlette's `str()` of an `HTTPException` (status and detail). -/
def strOfHTTPException (code : Nat) (detail : String) : String :=
  toString code ++ ": " ++ detail

/-- Exception classification of the `except` block wrapping the
Hugging Face download (main.py lines 240-257). -/
def classifyHfFailure (msg : String) : Nat × String :=
  if strContains msg "UnpicklingError" || strContains msg "invalid load key" then
    (400, "Failed to download model: Invalid file format")
  else if strContains msg "TypeError" && strContains msg "should be a *.pt PyTorch model" then
    (400, "Invalid file type")
  else (400, "Failed to download model: " ++ msg)

/-! ### Request, response and environment -/

/-- `ModelRequest` (main.py lines 182-186). -/
structure ModelRequest where
  url : String
  source : String := "huggingface"
  name : Option String := none
  token : Option String := none
deriving DecidableEq, Repr

/-- `ModelMetadata` (main.py lines 198-207); timestamps are seconds. -/
structure ModelMetadata where
  name : String
  description : String
  num_classes : Nat
  class_labels : List String
  created_at : Nat
  file_size : Nat
  source_url : String
deriving DecidableEq, Repr

/-- `ModelResponse` (main.py lines 210-215). -/
structure ModelResponse where
  download_url : String
  expires_at : Nat
  metadata : ModelMetadata
deriving DecidableEq, Repr

/-- External world of one request: the store contents, the clock, the
presigner, the transport's responses per URL and the outcomes of the
opaque YOLO library calls. -/
structure World where
  store : List String
  now : Nat
  presign : String → Nat → String
  hfFetchStatus : String → Nat
  hfFetchBytes : String → List Nat
  ghFetchStatus : String → Nat
  ghFetchBytes : String → List Nat
  yoloLoadUrl : String → Except String (List Nat)
  yoloOpen : List Nat → Except String (List String)
  yoloExport : List Nat → Except String (Option (List Nat))
  uploadFailure : Option String

/-- Outcome of `convert_model`: the HTTP-level result, whether the
fingerprint was computed, whether `model.export` ran, and the store
afterwards. -/
structure ConvOutcome where
  result : Except (Nat × String) ModelResponse
  hashComputed : Bool
  exportCalled : Bool
  newStore : List String
deriving Repr

/-- Download stage of `convert_model` (main.py lines 228-266): dispatch on
the source, rewrite the URL, fetch, and classify failures exactly as the
code's `try`/`except` nesting does.  Note that with a token the
`HTTPException` raised inside `download_from_huggingface` is caught again
by the enclosing `except Exception` (line 240) and re-wrapped. -/
def resolve_bytes (w : World) (req : ModelRequest) : Except (Nat × String) (List Nat) :=
  if req.source = "huggingface" then
    let download_url := get_hf_download_url req.url
    match req.token with
    | some _ =>
      let u := get_hf_download_url download_url
      match download_from_huggingface_error (w.hfFetchStatus u) with
      | some (c, d) => Except.error (classifyHfFailure (strOfHTTPException c d))
      | none => Except.ok (w.hfFetchBytes u)
    | none =>
      match w.yoloLoadUrl download_url with
      | Except.error msg => Except.error (classifyHfFailure msg)
      | Except.ok bytes => Except.ok bytes
  else if req.source = "github" then
    let u := github_raw_url req.url
    match download_from_github_error (w.ghFetchStatus u) with
    | some e => Except.error e
    | none => Except.ok (w.ghFetchBytes u)
  else Except.error (400, "Invalid source. Must be \x27huggingface\x27 or \x27github\x27")

/-- Export parameters hashed with the model (main.py lines 269-274). -/
def export_params (req : ModelRequest) : List (String × PVal) :=
  [("format", PVal.s "coreml"), ("nms", PVal.b true),
   ("source", PVal.s req.source), ("url", PVal.s req.url)]

/-- `convert_model` (main.py lines 218-359). -/
def convert_model (w : World) (req : ModelRequest) : ConvOutcome :=
  match resolve_bytes w req with
  | Except.error e => ⟨Except.error e, false, false, w.store⟩
  | Except.ok modelBytes =>
    let model_hash := compute_model_hash modelBytes (export_params req)
    match check_model_exists w.store w.presign model_hash with
    | (true, cached_url) =>
      let name := (req.name).getD ("yolo_model_" ++ model_hash.take 8)
      match w.yoloOpen modelBytes with
      | Except.error msg => ⟨Except.error (500, msg), true, false, w.store⟩
      | Except.ok names =>
        ⟨Except.ok
          { download_url := cached_url
            expires_at := w.now + PRESIGNED_URL_EXPIRY
            metadata :=
              { name := name
                description := "YOLO model converted from " ++ req.url ++ " (cached)"
                num_classes := names.length
                class_labels := names
                created_at := w.now
                file_size := modelBytes.length
                source_url := req.url } },
          true, false, w.store⟩
    | (false, _) =>
      match w.yoloOpen modelBytes with
      | Except.error msg => ⟨Except.error (500, msg), true, false, w.store⟩
      | Except.ok names =>
        let name := (req.name).getD ("yolo_model_" ++ model_hash.take 8)
        match w.yoloExport modelBytes with
        | Except.error msg => ⟨Except.error (500, msg), true, true, w.store⟩
        | Except.ok none =>
          ⟨Except.error (500, "Model export failed - CoreML package not created"),
            true, true, w.store⟩
        | Except.ok (some pkg) =>
          match upload_to_s3 w.store w.presign w.uploadFailure model_hash with
          | Except.error e => ⟨Except.error e, true, true, w.store⟩
          | Except.ok (download_url, store2) =>
            ⟨Except.ok
              { download_url := download_url
                expires_at := w.now + PRESIGNED_URL_EXPIRY
                metadata :=
                  { name := name
                    description := "YOLO model converted from " ++ req.url
                    num_classes := names.length
                    class_labels := names
                    created_at := w.now
                    file_size := pkg.length
                    source_url := req.url } },
              true, true, store2⟩

/-! ### Concrete environments used by closed witness statements -/

/-- Test world: empty store, all transports succeed, all library calls
succeed. -/
def wStd : World :=
  { store := []
    now := 1000
    presign := fun k _ => "https://r2.example/" ++ k
    hfFetchStatus := fun _ => 200
    hfFetchBytes := fun _ => [1, 2, 3]
    ghFetchStatus := fun _ => 200
    ghFetchBytes := fun _ => [1, 2, 3]
    yoloLoadUrl := fun _ => Except.ok [1, 2, 3]
    yoloOpen := fun _ => Except.ok ["person", "car"]
    yoloExport := fun _ => Except.ok (some [7, 7, 7, 7])
    uploadFailure := none }

/-- Test world whose GitHub transport answers 404. -/
def w404 : World := { wStd with ghFetchStatus := fun _ => 404 }

/-- A GitHub-sourced request. -/
def reqGh : ModelRequest :=
  { url := "https://github.com/u/r/blob/main/m.pt", source := "github" }

/-- A request with the spec's direct-upload source tag. -/
def reqUpload : ModelRequest :=
  { url := "https://example.com/m.pt", source := "upload" }

/-- Test world with a constant presigner. -/
def wEasy : World := { wStd with presign := fun _ _ => "https://r2.example/signed" }

/-- A GitHub-sourced request with an explicit model name. -/
def reqNamed : ModelRequest :=
  { url := "https://github.com/u/r/blob/main/m.pt", source := "github", name := some "m" }

/-- The response produced by `convert_model wEasy reqNamed`. -/
def respEasy : ModelResponse :=
  { download_url := "https://r2.example/signed"
    expires_at := 4600
    metadata :=
      { name := "m"
        description := "YOLO model converted from https://github.com/u/r/blob/main/m.pt"
        num_classes := 2
        class_labels := ["person", "car"]
        created_at := 1000
        file_size := 4
        source_url := "https://github.com/u/r/blob/main/m.pt" } }

/-- A model-page URL with two overlapping occurrences of the rewrite
pattern. -/
def hfDoubleBlobUrl : String := "https://huggingface.co/u/m/blob/blob/x.pt"

/-- Conversion-output artifact with two children, used to exhibit the
archive layout. -/
def artifact0 : FsTree :=
  .dir "model.mlpackage"
    (.cons (.file "Manifest.json" [1])
      (.cons (.dir "Data" (.cons (.file "weights.bin" [2, 3]) .nil)) .nil))

/-! ## Supporting lemmas -/

/-! ### Chunked reading -/

theorem chunksAux_flatten (n : Nat) (hn : 0 < n) :
    ∀ (fuel : Nat) (l : List α), l.length ≤ fuel → (chunksAux n fuel l).flatten = l := by
  intro fuel
  induction fuel with
  | zero =>
    intro l hl
    rw [List.length_eq_zero.mp (Nat.le_zero.mp hl)]
    rfl
  | succ fuel ih =>
    intro l hl
    cases l with
    | nil => rfl
    | cons c rest =>
      rw [chunksAux, List.flatten_cons, ih]
      · exact List.take_append_drop n (c :: rest)
      · calc (List.drop n (c :: rest)).length = (c :: rest).length - n := by
              rw [List.length_drop]
          _ ≤ fuel + 1 - n := Nat.sub_le_sub_right hl n
          _ ≤ fuel := by omega

/-- Streaming the file through the hasher in chunks feeds it exactly the
file's bytes. -/
theorem chunksOf_flatten (n : Nat) (hn : 0 < n) (l : List α) :
    (chunksOf n l).flatten = l :=
  chunksAux_flatten n hn l.length l (Nat.le_refl _)

/-! ### Canonical parameter order -/

theorem pvalRank_inj : ∀ a b : PVal, pvalRank a = pvalRank b → a = b := by
  intro a b h
  cases a with
  | s v =>
    cases b with
    | s w => simpa [pvalRank] using h
    | b w => cases w <;> simp [pvalRank] at h
  | b v =>
    cases v <;> cases b with
      | s w => simp [pvalRank] at h
      | b w => cases w <;> simp_all [pvalRank]

theorem paramKey_inj : ∀ p q : String × PVal, paramKey p = paramKey q → p = q := by
  intro p q h
  unfold paramKey at h
  rw [toLex_inj, Prod.mk.injEq, toLex_inj] at h
  exact Prod.ext h.1 (pvalRank_inj _ _ h.2)

instance : IsTotal (String × PVal) paramLe :=
  ⟨fun p q => le_total (paramKey p) (paramKey q)⟩

instance : IsTrans (String × PVal) paramLe :=
  ⟨fun _ _ _ h1 h2 => le_trans h1 h2⟩

instance : IsAntisymm (String × PVal) paramLe :=
  ⟨fun p q h1 h2 => paramKey_inj p q (le_antisymm h1 h2)⟩

/-- Sorting by the canonical order erases the construction order: any two
item lists that are permutations of each other sort identically. -/
theorem sortedParams_eq_of_perm {P1 P2 : List (String × PVal)} (h : P1.Perm P2) :
    sortedParams P1 = sortedParams P2 :=
  List.eq_of_perm_of_sorted
    ((List.perm_insertionSort paramLe P1).trans
      (h.trans (List.perm_insertionSort paramLe P2).symm))
    (List.sorted_insertionSort paramLe P1)
    (List.sorted_insertionSort paramLe P2)

/-! ### Archive paths -/

mutual
theorem fsEntries_prepend (pre : List String) (t : FsTree) :
    fsEntries pre t = (fsEntries [] t).map (fun e => (pre ++ e.1, e.2)) := by
  cases t with
  | file n c => simp [fsEntries]
  | dir n cs =>
    simp only [fsEntries, List.nil_append]
    rw [forestEntries_prepend (pre ++ [n]) cs, forestEntries_prepend [n] cs, List.map_map]
    simp [Function.comp]

theorem forestEntries_prepend (pre : List String) (ts : FsForest) :
    forestEntries pre ts = (forestEntries [] ts).map (fun e => (pre ++ e.1, e.2)) := by
  cases ts with
  | nil => simp [forestEntries]
  | cons t ts =>
    simp only [forestEntries, List.map_append]
    rw [fsEntries_prepend pre t, forestEntries_prepend pre ts]
end

/-! ### Occurrences of a pattern in a character list -/

/-- The pattern occurs in `s` at position `p`. -/
def occursAt (pat s : List Char) (p : Nat) : Prop := pat <+: s.drop p

/-- Number of positions at which the pattern occurs. -/
def countMatches (pat : List Char) : List Char → Nat
  | [] => 0
  | c :: rest => (if pat.isPrefixOf (c :: rest) then 1 else 0) + countMatches pat rest

theorem occursAt_cons_succ {pat s : List Char} {c : Char} {p : Nat} :
    occursAt pat (c :: s) (p + 1) ↔ occursAt pat s p := Iff.rfl

theorem occursAt_zero {pat s : List Char} : occursAt pat s 0 ↔ pat <+: s := by
  rw [occursAt, List.drop_zero]

theorem containsSub_iff_exists {pat : List Char} (hpat : pat ≠ []) :
    ∀ s : List Char, containsSub pat s = true ↔ ∃ p, occursAt pat s p := by
  intro s
  induction s with
  | nil =>
    simp only [containsSub, List.isEmpty_iff]
    constructor
    · intro h; exact absurd h hpat
    · rintro ⟨p, hp⟩
      rw [occursAt, List.drop_nil] at hp
      exact absurd (List.prefix_nil.mp hp) hpat
  | cons c rest ih =>
    simp only [containsSub, Bool.or_eq_true, List.isPrefixOf_iff_prefix, ih]
    constructor
    · rintro (h | ⟨p, hp⟩)
      · exact ⟨0, h⟩
      · exact ⟨p + 1, hp⟩
    · rintro ⟨p, hp⟩
      cases p with
      | zero => exact Or.inl hp
      | succ p => exact Or.inr ⟨p, hp⟩

theorem countMatches_pos_of_occursAt {pat s : List Char} {p : Nat}
    (h : occursAt pat s p) (hpat : pat ≠ []) : 1 ≤ countMatches pat s := by
  induction s generalizing p with
  | nil =>
    rw [occursAt, List.drop_nil] at h
    exact absurd (List.prefix_nil.mp h) hpat
  | cons c rest ih =>
    rw [countMatches]
    cases p with
    | zero =>
      rw [if_pos (List.isPrefixOf_iff_prefix.mpr (occursAt_zero.mp h))]
      omega
    | succ p => have := ih (occursAt_cons_succ.mp h); omega

theorem occursAt_unique {pat s : List Char} (hpat : pat ≠ [])
    (hcount : countMatches pat s ≤ 1) {p q : Nat}
    (hp : occursAt pat s p) (hq : occursAt pat s q) : p = q := by
  induction s generalizing p q with
  | nil =>
    rw [occursAt, List.drop_nil] at hp
    exact absurd (List.prefix_nil.mp hp) hpat
  | cons c rest ih =>
    rw [countMatches] at hcount
    cases p with
    | zero =>
      cases q with
      | zero => rfl
      | succ q =>
        rw [if_pos (List.isPrefixOf_iff_prefix.mpr (occursAt_zero.mp hp))] at hcount
        have := countMatches_pos_of_occursAt (occursAt_cons_succ.mp hq) hpat
        omega
    | succ p =>
      cases q with
      | zero =>
        rw [if_pos (List.isPrefixOf_iff_prefix.mpr (occursAt_zero.mp hq))] at hcount
        have := countMatches_pos_of_occursAt (occursAt_cons_succ.mp hp) hpat
        omega
      | succ q =>
        have : countMatches pat rest ≤ 1 := by
          by_cases hh : pat.isPrefixOf (c :: rest) <;> simp [hh] at hcount <;> omega
        rw [ih this (occursAt_cons_succ.mp hp) (occursAt_cons_succ.mp hq)]

/-! ### Behaviour of the `str.replace` scanner -/

theorem replaceAux_skip (pat rep : List Char) :
    ∀ (k : Nat) (l : List Char), replaceAux pat rep k l = replaceAux pat rep 0 (l.drop k) := by
  intro k
  induction k with
  | zero => intro l; rw [List.drop_zero]
  | succ k ih =>
    intro l
    cases l with
    | nil => rfl
    | cons c rest => rw [replaceAux, ih, List.drop_succ_cons]

theorem replaceAux_of_not_contains {pat rep : List Char} :
    ∀ {l : List Char}, containsSub pat l = false → replaceAux pat rep 0 l = l := by
  intro l
  induction l with
  | nil => intro _; rfl
  | cons c rest ih =>
    intro h
    rw [containsSub, Bool.or_eq_false_iff] at h
    rw [replaceAux, if_neg (by simp [h.1]), ih h.2]

/-! ### The Hugging Face URL rewrite -/

/-- Characters of the pattern replaced by `get_hf_download_url`. -/
def blobL : List Char := "/blob/".data

/-- Characters of its replacement. -/
def resolveL : List Char := "/resolve/".data

theorem blobL_ne_nil : blobL ≠ [] := by decide

theorem blobL_length : blobL.length = 6 := by decide

theorem resolveL_length : resolveL.length = 9 := by decide

/-- Decomposition of `str.replace` at the first match, when the pattern
occurs at most once: the string splits as `x ++ pat ++ y` with no further
occurrence, and the replacement splits accordingly. -/
theorem replace_first_decomp :
    ∀ (s : List Char), containsSub blobL s = true → countMatches blobL s ≤ 1 →
      ∃ x y, s = x ++ blobL ++ y
        ∧ pyReplace blobL resolveL s = x ++ resolveL ++ y
        ∧ containsSub blobL y = false := by
  intro s
  induction s with
  | nil => intro hc _; simp [containsSub, blobL] at hc
  | cons c rest ih =>
    intro hc hcount
    by_cases hpre : blobL.isPrefixOf (c :: rest)
    · obtain ⟨y, hy⟩ := List.isPrefixOf_iff_prefix.mp hpre
      have hyno : containsSub blobL y = false := by
        rw [← Bool.not_eq_true]
        intro hcy
        obtain ⟨r, hr⟩ := (containsSub_iff_exists blobL_ne_nil y).mp hcy
        have hshift : occursAt blobL (c :: rest) (6 + r) := by
          rw [occursAt, ← hy, List.drop_append_eq_append_drop,
            List.drop_eq_nil_of_le (by rw [blobL_length]; omega),
            List.nil_append, blobL_length]
          simpa [Nat.add_sub_cancel_left] using hr
        have h0 : occursAt blobL (c :: rest) 0 :=
          occursAt_zero.mpr ⟨y, hy⟩
        have := occursAt_unique blobL_ne_nil hcount h0 hshift
        omega
      refine ⟨[], y, by simpa using hy.symm, ?_, hyno⟩
      have hdrop : rest.drop (blobL.length - 1) = y := by
        have h6 : (c :: rest).drop blobL.length = y := by
          rw [← hy, List.drop_append_eq_append_drop, Nat.sub_self,
            List.drop_zero, List.drop_eq_nil_of_le (Nat.le_refl _), List.nil_append]
        rw [blobL_length] at h6
        rw [blobL_length]
        exact h6
      rw [pyReplace, replaceAux, if_pos hpre, replaceAux_skip, hdrop,
        replaceAux_of_not_contains hyno, List.nil_append]
    · have hc2 : containsSub blobL rest = true := by
        rw [containsSub, Bool.or_eq_true] at hc
        exact hc.resolve_left (by simpa using hpre)
      have hcount2 : countMatches blobL rest ≤ 1 := by
        rw [countMatches, if_neg (by simpa using hpre)] at hcount
        omega
      obtain ⟨x, y, hxy, hrep, hyno⟩ := ih hc2 hcount2
      refine ⟨c :: x, y, by simp [hxy], ?_, hyno⟩
      rw [pyReplace, replaceAux, if_neg (by simpa using hpre)]
      rw [pyReplace] at hrep
      rw [hrep]
      simp

/-- Splitting `List.drop` over an append, left part. -/
theorem drop_append_of_le {x z : List Char} {p : Nat} (h : p ≤ x.length) :
    (x ++ z).drop p = x.drop p ++ z := by
  rw [List.drop_append_eq_append_drop, Nat.sub_eq_zero_of_le h, List.drop_zero]

/-- Splitting `List.drop` over an append, right part. -/
theorem drop_append_of_ge {x z : List Char} {p : Nat} (h : x.length ≤ p) :
    (x ++ z).drop p = z.drop (p - x.length) := by
  rw [List.drop_append_eq_append_drop, List.drop_eq_nil_of_le h, List.nil_append]

/-- The designated occurrence of the pattern in `x ++ pat ++ y`. -/
theorem occursAt_middle (x y : List Char) :
    occursAt blobL (x ++ blobL ++ y) x.length := by
  rw [occursAt, List.append_assoc, drop_append_of_ge (Nat.le_refl _),
    Nat.sub_self, List.drop_zero]
  exact List.prefix_append _ _

/-- Core combinatorial fact behind the amended idempotence claim: if
`/blob/` occurs exactly once, namely between `x` and `y`, then replacing
it by `/resolve/` leaves a string with no occurrence of `/blob/` at all
(the replacement contains no letter `b`, and a straddling occurrence
would force a second occurrence of the pattern in the original). -/
theorem no_occursAt_replaced (x y : List Char)
    (huniq : ∀ p q, occursAt blobL (x ++ blobL ++ y) p →
      occursAt blobL (x ++ blobL ++ y) q → p = q) :
    ∀ p, ¬ occursAt blobL (x ++ resolveL ++ y) p := by
  intro p hp
  have hmatch : ∀ j, j < 6 → blobL[j]? = (x ++ resolveL ++ y)[p + j]? := by
    intro j hj
    have hpfx := hp
    rw [occursAt, List.prefix_iff_eq_take] at hpfx
    calc blobL[j]? = (((x ++ resolveL ++ y).drop p).take blobL.length)[j]? := by
          rw [← hpfx]
      _ = ((x ++ resolveL ++ y).drop p)[j]? := by
          rw [List.getElem?_take, if_pos (by rw [blobL_length]; omega)]
      _ = (x ++ resolveL ++ y)[p + j]? := List.getElem?_drop _ _ _
  have hres : ∀ i, x.length ≤ i → i < x.length + 9 →
      (x ++ resolveL ++ y)[i]? = resolveL[i - x.length]? := by
    intro i h1 h2
    rw [List.append_assoc, List.getElem?_append_right h1,
      List.getElem?_append, if_pos (by rw [resolveL_length]; omega)]
  have hbneq : ∀ k, k < 9 → ¬ resolveL[k]? = some 'b' := by decide
  rcases Nat.lt_or_ge (p + 6) (x.length + 1) with hc1 | hc1
  · -- the whole match sits inside `x`: it is a second occurrence in the
    -- original string, strictly left of the designated one
    have hx : blobL <+: x.drop p := by
      have hsp : (x ++ resolveL ++ y).drop p = x.drop p ++ (resolveL ++ y) := by
        rw [List.append_assoc, drop_append_of_le (by omega)]
      rw [occursAt, hsp, List.prefix_iff_eq_take, List.take_append_eq_append_take,
        Nat.sub_eq_zero_of_le (by rw [blobL_length, List.length_drop]; omega),
        List.take_zero, List.append_nil] at hp
      rw [List.prefix_iff_eq_take]
      exact hp
    have hocc : occursAt blobL (x ++ blobL ++ y) p := by
      rw [occursAt, List.append_assoc, drop_append_of_le (by omega)]
      exact hx.trans (List.prefix_append _ _)
    have := huniq p x.length hocc (occursAt_middle x y)
    omega
  · rcases Nat.lt_or_ge p (x.length + 9) with hc2 | hc2
    swap
    · -- the whole match sits inside `y`: again a second occurrence
      have hsp : (x ++ resolveL ++ y).drop p = y.drop (p - (x.length + 9)) := by
        rw [List.append_assoc, drop_append_of_ge (by omega),
          drop_append_of_ge (by rw [resolveL_length]; omega), resolveL_length,
          show p - x.length - 9 = p - (x.length + 9) from by omega]
      rw [occursAt, hsp] at hp
      have hocc : occursAt blobL (x ++ blobL ++ y) (x.length + 6 + (p - (x.length + 9))) := by
        rw [occursAt, List.append_assoc, drop_append_of_ge (by omega),
          drop_append_of_ge (by rw [blobL_length]; omega), blobL_length]
        have he : x.length + 6 + (p - (x.length + 9)) - x.length - 6
            = p - (x.length + 9) := by omega
        rw [he]
        exact hp
      have := huniq _ x.length hocc (occursAt_middle x y)
      omega
    · by_cases hc3 : p + 6 = x.length + 1
      · -- the match ends on the first character of the replacement: then
        -- `x` ends in "/blob" and the original had an occurrence at `p`
        have hlen5 : (x.drop p).length = 5 := by rw [List.length_drop]; omega
        have hsp : (x ++ resolveL ++ y).drop p = x.drop p ++ (resolveL ++ y) := by
          rw [List.append_assoc, drop_append_of_le (by omega)]
        rw [occursAt, hsp] at hp
        obtain ⟨t, ht⟩ := hp
        have h5 := congrArg (List.take 5) ht
        rw [List.take_append_eq_append_take, List.take_append_eq_append_take,
          blobL_length, hlen5, List.take_zero, List.take_zero,
          List.append_nil, List.append_nil,
          List.take_of_length_le (le_of_eq hlen5)] at h5
        have hx5 : x.drop p = ['/', 'b', 'l', 'o', 'b'] := by
          rw [← h5]; decide
        have hocc : occursAt blobL (x ++ blobL ++ y) p := by
          rw [occursAt, List.append_assoc, drop_append_of_le (by omega), hx5]
          refine ⟨['b', 'l', 'o', 'b', '/'] ++ y, ?_⟩
          rw [← List.append_assoc, ← List.append_assoc]
          all_goals congr 1 <;> decide
        have := huniq p x.length hocc (occursAt_middle x y)
        omega
      · by_cases hc4 : p = x.length + 8
        · -- the match begins on the last character of the replacement:
          -- then `y` starts with "blob/" and the original had an
          -- occurrence at `x.length + 5`
          have hsp : (x ++ resolveL ++ y).drop p = ['/'] ++ y := by
            rw [List.append_assoc, drop_append_of_ge (by omega),
              show p - x.length = 8 from by omega,
              drop_append_of_le (by rw [resolveL_length]; omega)]
            all_goals congr 1 <;> decide
          rw [occursAt, hsp, show blobL = '/' :: ("blob/").data from by decide,
            List.singleton_append, List.cons_prefix_cons] at hp
          obtain ⟨t, ht⟩ := hp.2
          have hocc : occursAt blobL (x ++ blobL ++ y) (x.length + 5) := by
            rw [occursAt, List.append_assoc, drop_append_of_ge (by omega),
              show x.length + 5 - x.length = 5 from by omega,
              drop_append_of_le (by rw [blobL_length]; omega),
              show blobL.drop 5 = ['/'] from by decide, ← ht]
            refine ⟨t, ?_⟩
            rw [← List.append_assoc]
            all_goals congr 1 <;> decide
          have := huniq (x.length + 5) x.length hocc (occursAt_middle x y)
          omega
        · -- any other overlap puts a letter `b` of the pattern inside the
          -- replacement, which contains none
          have hb : (x.length ≤ p + 1 ∧ p + 1 < x.length + 9)
              ∨ (x.length ≤ p + 4 ∧ p + 4 < x.length + 9) := by omega
          rcases hb with ⟨h1, h2⟩ | ⟨h1, h2⟩
          · have e1 := hmatch 1 (by omega)
            rw [hres (p + 1) h1 h2] at e1
            exact hbneq (p + 1 - x.length) (by omega) (by rw [← e1]; decide)
          · have e4 := hmatch 4 (by omega)
            rw [hres (p + 4) h1 h2] at e4
            exact hbneq (p + 4 - x.length) (by omega) (by rw [← e4]; decide)

/-! ### Orchestrator case analysis -/

theorem convert_model_resolve_error (w : World) (req : ModelRequest)
    (e : Nat × String) (h : resolve_bytes w req = Except.error e) :
    convert_model w req = ⟨Except.error e, false, false, w.store⟩ := by
  simp only [convert_model, h]

/-- On a cache hit the hit branch runs, whatever the metadata load does:
`model.export` is not invoked and the store is unchanged. -/
theorem convert_model_hit_no_export (w : World) (req : ModelRequest) (B : List Nat)
    (hres : resolve_bytes w req = Except.ok B)
    (hc : w.store.contains (checkKey (compute_model_hash B (export_params req))) = true) :
    (convert_model w req).exportCalled = false
      ∧ (convert_model w req).newStore = w.store := by
  have hm : checkKey (compute_model_hash B (export_params req)) ∈ w.store :=
    List.elem_iff.mp hc
  cases hyo : w.yoloOpen B <;>
    simp [convert_model, hres, check_model_exists, hm, hyo]

/-- Every successful result carries a URL presigned for the derived
storage key with the configured TTL, and the expiry stamp `now + TTL`. -/
theorem convert_model_ok_fields (w : World) (req : ModelRequest) (resp : ModelResponse)
    (hok : (convert_model w req).result = Except.ok resp) :
    ∃ B, resolve_bytes w req = Except.ok B
      ∧ resp.download_url
          = w.presign (checkKey (compute_model_hash B (export_params req)))
              PRESIGNED_URL_EXPIRY
      ∧ resp.expires_at = w.now + PRESIGNED_URL_EXPIRY := by
  cases hres : resolve_bytes w req with
  | error e =>
    rw [convert_model_resolve_error w req e hres] at hok
    exact absurd hok (by simp)
  | ok B =>
    refine ⟨B, rfl, ?_⟩
    by_cases hc : w.store.contains (checkKey (compute_model_hash B (export_params req)))
    · have hm : checkKey (compute_model_hash B (export_params req)) ∈ w.store :=
        List.elem_iff.mp hc
      cases hyo : w.yoloOpen B with
      | error msg =>
        simp [convert_model, hres, check_model_exists, hm, hyo] at hok
      | ok names =>
        have hcm : (convert_model w req).result
            = Except.ok
              { download_url :=
                  w.presign (checkKey (compute_model_hash B (export_params req)))
                    PRESIGNED_URL_EXPIRY
                expires_at := w.now + PRESIGNED_URL_EXPIRY
                metadata :=
                  { name := (req.name).getD
                      ("yolo_model_" ++ (compute_model_hash B (export_params req)).take 8)
                    description := "YOLO model converted from " ++ req.url ++ " (cached)"
                    num_classes := names.length
                    class_labels := names
                    created_at := w.now
                    file_size := B.length
                    source_url := req.url } } := by
          simp [convert_model, hres, check_model_exists, hm, hyo]
        rw [hcm] at hok
        obtain rfl := Except.ok.inj hok
        exact ⟨rfl, rfl⟩
    · have hm : checkKey (compute_model_hash B (export_params req)) ∉ w.store :=
        fun h => hc (List.elem_iff.mpr h)
      cases hyo : w.yoloOpen B with
      | error msg =>
        simp [convert_model, hres, check_model_exists, hm, hyo] at hok
      | ok names =>
        cases hex : w.yoloExport B with
        | error msg =>
          simp [convert_model, hres, check_model_exists, hm, hyo, hex] at hok
        | ok opkg =>
          cases opkg with
          | none =>
            simp [convert_model, hres, check_model_exists, hm, hyo, hex] at hok
          | some pkg =>
            cases hup : w.uploadFailure with
            | some msg =>
              simp [convert_model, hres, check_model_exists, hm, hyo, hex,
                upload_to_s3, hup] at hok
            | none =>
              have hcm : (convert_model w req).result
                  = Except.ok
                    { download_url :=
                        w.presign (uploadKey (compute_model_hash B (export_params req)))
                          PRESIGNED_URL_EXPIRY
                      expires_at := w.now + PRESIGNED_URL_EXPIRY
                      metadata :=
                        { name := (req.name).getD
                            ("yolo_model_"
                              ++ (compute_model_hash B (export_params req)).take 8)
                          description := "YOLO model converted from " ++ req.url
                          num_classes := names.length
                          class_labels := names
                          created_at := w.now
                          file_size := pkg.length
                          source_url := req.url } } := by
                simp [convert_model, hres, check_model_exists, hm, hyo, hex,
                  upload_to_s3, hup]
              rw [hcm] at hok
              obtain rfl := Except.ok.inj hok
              exact ⟨rfl, rfl⟩

/-- A successful request leaves the derived key present in the store. -/
theorem convert_model_ok_key_cached (w : World) (req : ModelRequest) (B : List Nat)
    (hres : resolve_bytes w req = Except.ok B)
    (hok : (convert_model w req).result.isOk = true) :
    checkKey (compute_model_hash B (export_params req)) ∈ (convert_model w req).newStore := by
  by_cases hc : w.store.contains (checkKey (compute_model_hash B (export_params req)))
  · rw [(convert_model_hit_no_export w req B hres hc).2]
    exact List.elem_iff.mp hc
  · have hm : checkKey (compute_model_hash B (export_params req)) ∉ w.store :=
      fun h => hc (List.elem_iff.mpr h)
    cases hyo : w.yoloOpen B with
    | error msg =>
      simp [convert_model, hres, check_model_exists, hm, hyo, Except.isOk,
        Except.toBool] at hok
    | ok names =>
      cases hex : w.yoloExport B with
      | error msg =>
        simp [convert_model, hres, check_model_exists, hm, hyo, hex, Except.isOk,
          Except.toBool] at hok
      | ok opkg =>
        cases opkg with
        | none =>
          simp [convert_model, hres, check_model_exists, hm, hyo, hex, Except.isOk,
            Except.toBool] at hok
        | some pkg =>
          cases hup : w.uploadFailure with
          | some msg =>
            simp [convert_model, hres, check_model_exists, hm, hyo, hex,
              upload_to_s3, hup, Except.isOk, Except.toBool] at hok
          | none =>
            have hcm : (convert_model w req).newStore
                = uploadKey (compute_model_hash B (export_params req)) :: w.store := by
              simp [convert_model, hres, check_model_exists, hm, hyo, hex,
                upload_to_s3, hup]
            rw [hcm]
            exact List.mem_cons_self _ _

/-- The resolution stage never reads the store. -/
theorem resolve_bytes_store_update (w : World) (s : List String) (req : ModelRequest) :
    resolve_bytes { w with store := s } req = resolve_bytes w req := rfl

/-! ## Claims -/

/-- Claim C3: the fingerprint is deterministic — for all artifact bytes and
parameter maps, `compute_model_hash` yields the same digest on every call
(it is a pure function of its two inputs: no randomness or timestamp
enters the hash input), and the chunked file read feeds the hasher exactly
the artifact bytes followed by the canonical parameter string. -/
theorem compute_model_hash_deterministic (B1 B2 : List Nat)
    (P1 P2 : List (String × PVal)) (hB : B1 = B2) (hP : P1 = P2) :
    compute_model_hash B1 P1 = compute_model_hash B2 P2
    ∧ compute_model_hash B1 P1
        = hexdigest (sha256 (B1 ++ strBytes (paramsStr (sortedParams P1)))) := by
  subst hB; subst hP
  refine ⟨rfl, ?_⟩
  rw [compute_model_hash, chunksOf_flatten 8192 (by omega)]

theorem compute_model_hash_deterministic_witness :
    ([1, 2, 3] : List Nat) = [1, 2, 3]
    ∧ ([("nms", PVal.b true)] : List (String × PVal)) = [("nms", PVal.b true)]
    ∧ (compute_model_hash [1, 2, 3] [("nms", PVal.b true)]
          = compute_model_hash [1, 2, 3] [("nms", PVal.b true)]
       ∧ compute_model_hash [1, 2, 3] [("nms", PVal.b true)]
          = hexdigest (sha256 ([1, 2, 3]
              ++ strBytes (paramsStr (sortedParams [("nms", PVal.b true)]))))) :=
  ⟨rfl, rfl, compute_model_hash_deterministic [1, 2, 3] [1, 2, 3]
    [("nms", PVal.b true)] [("nms", PVal.b true)] rfl rfl⟩

/-- Claim C4: the fingerprint is invariant under the construction order of
the parameter map — permuting the items does not change the digest,
because the items are sorted before hashing. -/
theorem compute_model_hash_param_order_invariant (B : List Nat)
    (P1 P2 : List (String × PVal)) (hperm : P1.Perm P2) :
    compute_model_hash B P1 = compute_model_hash B P2 := by
  rw [compute_model_hash, compute_model_hash, sortedParams_eq_of_perm hperm]

theorem compute_model_hash_param_order_invariant_witness :
    List.Perm [("a", PVal.s "1"), ("b", PVal.s "2")]
      [("b", PVal.s "2"), ("a", PVal.s "1")]
    ∧ compute_model_hash [9] [("a", PVal.s "1"), ("b", PVal.s "2")]
        = compute_model_hash [9] [("b", PVal.s "2"), ("a", PVal.s "1")] :=
  ⟨List.Perm.swap _ _ _,
    compute_model_hash_param_order_invariant [9] _ _ (List.Perm.swap _ _ _)⟩

/-- Claim C6: the existence probe and the upload address the same storage
key `models/` ++ fingerprint ++ `.mlpackage.zip`; the probe's answer is
exactly membership of that key in the store (no other index is
consulted), and the upload writes exactly that key. -/
theorem storage_key_is_cache_record (model_hash : String) :
    checkKey model_hash = uploadKey model_hash
    ∧ checkKey model_hash = "models/" ++ model_hash ++ ".mlpackage.zip"
    ∧ (∀ (store : List String) (presign : String → Nat → String),
        (check_model_exists store presign model_hash).1
          = store.contains (checkKey model_hash))
    ∧ (∀ (store : List String) (presign : String → Nat → String),
        upload_to_s3 store presign none model_hash
          = Except.ok (presign (uploadKey model_hash) PRESIGNED_URL_EXPIRY,
              uploadKey model_hash :: store)) := by
  refine ⟨rfl, rfl, ?_, fun _ _ => rfl⟩
  intro store presign
  rw [check_model_exists]
  by_cases hm : checkKey model_hash ∈ store <;> simp [hm]

/-- Claim C2, counterexample: the code archives with the artifact
directory itself as `root_dir`, so the archive's top level holds the
artifact's children, not the artifact's own directory name as sole
entry. -/
theorem make_archive_flattens :
    archiveTopLevel (make_archive_entries artifact0) = ["Manifest.json", "Data"]
    ∧ archiveTopLevel (make_archive_entries artifact0) ≠ [artifact0.name] := by
  exact ⟨by decide, by decide⟩

/-- Claim C2, amended: packaging archives the conversion output relative
to the artifact directory itself, so unpacking reproduces the artifact's
internal relative structure exactly but with the artifact's children at
top level; the spec's parent-directory archive is the code's archive with
every path prefixed by the artifact's name. -/
theorem make_archive_relative_to_artifact (n : String) (cs : FsForest) :
    make_archive_entries (FsTree.dir n cs) = forestEntries [] cs
    ∧ spec_archive_entries (FsTree.dir n cs)
        = (make_archive_entries (FsTree.dir n cs)).map (fun e => (n :: e.1, e.2)) := by
  refine ⟨rfl, ?_⟩
  have h1 : spec_archive_entries (FsTree.dir n cs) = forestEntries [n] cs := rfl
  rw [h1, forestEntries_prepend [n] cs]
  simp only [make_archive_entries, List.singleton_append]

/-- Claim C1: when the fingerprint's key is already in the store the hit
branch runs and `model.export` is not invoked; a successful request leaves
the key cached, so a second request with identical inputs observes a
cache hit and again performs no export — the expensive conversion runs at
most once per distinct fingerprint. -/
theorem convert_model_at_most_once (w : World) (req : ModelRequest) (B : List Nat)
    (hres : resolve_bytes w req = Except.ok B) :
    (checkKey (compute_model_hash B (export_params req)) ∈ w.store →
      (convert_model w req).exportCalled = false)
    ∧ ((convert_model w req).result.isOk = true →
      checkKey (compute_model_hash B (export_params req)) ∈ (convert_model w req).newStore)
    ∧ ((convert_model w req).result.isOk = true →
      (convert_model { w with store := (convert_model w req).newStore } req).exportCalled
        = false) := by
  refine ⟨?_, ?_, ?_⟩
  · intro hmem
    exact (convert_model_hit_no_export w req B hres (List.elem_iff.mpr hmem)).1
  · intro hok
    exact convert_model_ok_key_cached w req B hres hok
  · intro hok
    have hmem := convert_model_ok_key_cached w req B hres hok
    have hres2 : resolve_bytes { w with store := (convert_model w req).newStore } req
        = Except.ok B := by rw [resolve_bytes_store_update]; exact hres
    exact (convert_model_hit_no_export _ req B hres2 (List.elem_iff.mpr hmem)).1

theorem convert_model_at_most_once_witness :
    resolve_bytes wStd reqGh = Except.ok [1, 2, 3]
    ∧ ((checkKey (compute_model_hash [1, 2, 3] (export_params reqGh)) ∈ wStd.store →
        (convert_model wStd reqGh).exportCalled = false)
      ∧ ((convert_model wStd reqGh).result.isOk = true →
        checkKey (compute_model_hash [1, 2, 3] (export_params reqGh))
          ∈ (convert_model wStd reqGh).newStore)
      ∧ ((convert_model wStd reqGh).result.isOk = true →
        (convert_model { wStd with store := (convert_model wStd reqGh).newStore }
            reqGh).exportCalled = false)) :=
  ⟨rfl, convert_model_at_most_once wStd reqGh [1, 2, 3] rfl⟩

/-- Claim C7: `convert_model` never returns a partially-valid result — the
outcome is either a structured error carrying a status code and a detail
string, or a complete response whose download URL is the grant presigned
for the derived storage key with the configured TTL and whose expiry
stamp is the current time plus that TTL. -/
theorem convert_model_structured_response (w : World) (req : ModelRequest) :
    (∃ code detail, (convert_model w req).result = Except.error (code, detail))
    ∨ (∃ resp B, (convert_model w req).result = Except.ok resp
        ∧ resolve_bytes w req = Except.ok B
        ∧ resp.download_url
            = w.presign (checkKey (compute_model_hash B (export_params req)))
                PRESIGNED_URL_EXPIRY
        ∧ resp.expires_at = w.now + PRESIGNED_URL_EXPIRY) := by
  cases hr : (convert_model w req).result with
  | error e => exact Or.inl ⟨e.1, e.2, by rw [Prod.mk.eta]⟩
  | ok resp =>
    obtain ⟨B, h1, h2, h3⟩ := convert_model_ok_fields w req resp hr
    exact Or.inr ⟨resp, B, rfl, h1, h2, h3⟩

/-- Claim C9: every access grant uses the fixed configured TTL of one
hour — the presigned URL is generated with `PRESIGNED_URL_EXPIRY = 3600`
seconds on both the cache-hit and the cache-miss path, and the returned
`expires_at` equals the current time plus 3600 seconds. -/
theorem presigned_expiry_one_hour (w : World) (req : ModelRequest) (resp : ModelResponse)
    (hok : (convert_model w req).result = Except.ok resp) :
    PRESIGNED_URL_EXPIRY = 3600
    ∧ resp.expires_at = w.now + 3600
    ∧ ∃ B, resolve_bytes w req = Except.ok B
        ∧ resp.download_url
            = w.presign (checkKey (compute_model_hash B (export_params req))) 3600 := by
  obtain ⟨B, h1, h2, h3⟩ := convert_model_ok_fields w req resp hok
  exact ⟨rfl, h3, B, h1, h2⟩

theorem presigned_expiry_one_hour_witness :
    (convert_model wEasy reqNamed).result = Except.ok respEasy
    ∧ (PRESIGNED_URL_EXPIRY = 3600
      ∧ respEasy.expires_at = wEasy.now + 3600
      ∧ ∃ B, resolve_bytes wEasy reqNamed = Except.ok B
          ∧ respEasy.download_url
              = wEasy.presign (checkKey (compute_model_hash B (export_params reqNamed))) 3600) :=
  ⟨by rfl, presigned_expiry_one_hour wEasy reqNamed respEasy (by rfl)⟩

/-- Claim C8, counterexample: a request whose source tag is "upload"
(raw-byte pass-through per the spec) is rejected by the source
dispatcher with an invalid-source error before anything else runs; the
service has no direct-upload path. -/
theorem upload_source_rejected :
    (convert_model wStd reqUpload).result
      = Except.error (400, "Invalid source. Must be \x27huggingface\x27 or \x27github\x27")
    ∧ (convert_model wStd reqUpload).hashComputed = false :=
  ⟨rfl, rfl⟩

/-- Claim C8, amended: the resolver accepts only the sources
"huggingface" and "github"; any other source tag — including the spec's
"upload" — is rejected with a 400 invalid-source error, with no
fingerprinting and no conversion. -/
theorem invalid_source_rejected (w : World) (req : ModelRequest)
    (h1 : req.source ≠ "huggingface") (h2 : req.source ≠ "github") :
    (convert_model w req).result
      = Except.error (400, "Invalid source. Must be \x27huggingface\x27 or \x27github\x27")
    ∧ (convert_model w req).hashComputed = false
    ∧ (convert_model w req).exportCalled = false := by
  have hre : resolve_bytes w req
      = Except.error (400, "Invalid source. Must be \x27huggingface\x27 or \x27github\x27") := by
    rw [resolve_bytes, if_neg h1, if_neg h2]
  rw [convert_model_resolve_error w req _ hre]
  exact ⟨rfl, rfl, rfl⟩

theorem invalid_source_rejected_witness :
    reqUpload.source ≠ "huggingface"
    ∧ reqUpload.source ≠ "github"
    ∧ ((convert_model wStd reqUpload).result
        = Except.error (400, "Invalid source. Must be \x27huggingface\x27 or \x27github\x27")
      ∧ (convert_model wStd reqUpload).hashComputed = false
      ∧ (convert_model wStd reqUpload).exportCalled = false) :=
  ⟨by decide, by decide,
    invalid_source_rejected wStd reqUpload (by decide) (by decide)⟩

/-- Claim C5, counterexample: the GitHub downloader has no dedicated
not-found branch — status 404 falls through to its generic
any-other-status rule and produces exactly that rule's error (HTTP 400
carrying the raw status), not a distinct not-found kind. -/
theorem github_404_not_distinct :
    download_from_github_error 404 = some (githubGenericError 404)
    ∧ githubGenericError 404 = (400, "Failed to download model: 404") :=
  ⟨by decide, by decide⟩

/-- Claim C5, amended: the Hugging Face downloader maps 404 to a
dedicated not-found error distinct from its generic any-other-status
rule, while the GitHub downloader maps 404 through its generic rule; in
either case the failure aborts the request before any fingerprint is
computed. -/
theorem resolver_404_handling (t : Nat) (h200 : t ≠ 200) (h401 : t ≠ 401)
    (h403 : t ≠ 403) (h404 : t ≠ 404) (w : World) (req : ModelRequest)
    (hsrc : req.source = "github")
    (hst : w.ghFetchStatus (github_raw_url req.url) = 404) :
    download_from_huggingface_error 404
      = some (400, "Failed to download model: File not found")
    ∧ download_from_huggingface_error t = some (huggingfaceGenericError t)
    ∧ huggingfaceGenericError t ≠ (400, "Failed to download model: File not found")
    ∧ download_from_github_error 404 = some (githubGenericError 404)
    ∧ (convert_model w req).hashComputed = false
    ∧ (convert_model w req).result = Except.error (githubGenericError 404) := by
  have hre : resolve_bytes w req = Except.error (githubGenericError 404) := by
    rw [resolve_bytes, if_neg (show ¬(req.source = "huggingface") from by
        rw [hsrc]; decide), if_pos hsrc]
    simp only [hst]
    rfl
  refine ⟨by decide, ?_, ?_, by decide, ?_, ?_⟩
  · rw [download_from_huggingface_error, if_neg h401, if_neg h403, if_neg h404,
      if_pos h200]
    rfl
  · intro h
    rw [huggingfaceGenericError, Prod.mk.injEq] at h
    have h3 := congrArg (fun s => s.data.take 31) h.2
    simp only [String.data_append] at h3
    rw [show (31 : Nat) = ("Failed to download model: HTTP ").data.length from by decide,
      List.take_left] at h3
    exact absurd h3 (by decide)
  · rw [convert_model_resolve_error w req _ hre]
  · rw [convert_model_resolve_error w req _ hre]

theorem resolver_404_handling_witness :
    (500 : Nat) ≠ 200 ∧ (500 : Nat) ≠ 401 ∧ (500 : Nat) ≠ 403 ∧ (500 : Nat) ≠ 404
    ∧ reqGh.source = "github"
    ∧ w404.ghFetchStatus (github_raw_url reqGh.url) = 404
    ∧ (download_from_huggingface_error 404
        = some (400, "Failed to download model: File not found")
      ∧ download_from_huggingface_error 500 = some (huggingfaceGenericError 500)
      ∧ huggingfaceGenericError 500 ≠ (400, "Failed to download model: File not found")
      ∧ download_from_github_error 404 = some (githubGenericError 404)
      ∧ (convert_model w404 reqGh).hashComputed = false
      ∧ (convert_model w404 reqGh).result = Except.error (githubGenericError 404)) :=
  ⟨by decide, by decide, by decide, by decide, rfl, rfl,
    resolver_404_handling 500 (by decide) (by decide) (by decide) (by decide)
      w404 reqGh rfl rfl⟩

/-- Claim C10, counterexample: the Hugging Face URL rewrite is not
idempotent — on a URL with two overlapping occurrences of the pattern the
first replacement re-creates a fresh occurrence and a second application
rewrites again. -/
theorem get_hf_download_url_not_idempotent :
    get_hf_download_url (get_hf_download_url hfDoubleBlobUrl)
      ≠ get_hf_download_url hfDoubleBlobUrl := by decide

/-- Claim C10, amended: the rewrite is idempotent on every URL in which
the substring occurs at most once — in particular on Hugging Face
model-page URLs, so the application in `convert_model` followed by the
one inside `download_from_huggingface` yields the same download URL as a
single application. -/
theorem get_hf_download_url_idempotent (u : String)
    (hcount : countMatches blobL u.data ≤ 1) :
    get_hf_download_url (get_hf_download_url u) = get_hf_download_url u := by
  by_cases hc : containsSub blobL u.data = true
  · obtain ⟨x, y, hxy, hrep, _⟩ := replace_first_decomp u.data hc hcount
    have hc2 : strContains u "/blob/" = true := hc
    have hfu : get_hf_download_url u = ⟨x ++ resolveL ++ y⟩ := by
      rw [get_hf_download_url, if_pos hc2, strReplace]
      exact congrArg String.mk hrep
    rw [hfu]
    have hnone : containsSub blobL (x ++ resolveL ++ y) = false := by
      rw [← Bool.not_eq_true]
      intro hcc
      obtain ⟨p, hp⟩ := (containsSub_iff_exists blobL_ne_nil _).mp hcc
      refine no_occursAt_replaced x y ?_ p hp
      intro p1 q1 hp1 hq1
      rw [← hxy] at hp1 hq1
      exact occursAt_unique blobL_ne_nil hcount hp1 hq1
    rw [get_hf_download_url, if_neg (show ¬(strContains ⟨x ++ resolveL ++ y⟩ "/blob/" = true) from by
      intro hcc
      have hcc2 : containsSub blobL (x ++ resolveL ++ y) = true := hcc
      rw [hnone] at hcc2
      exact Bool.noConfusion hcc2)]
  · have hc2 : ¬(strContains u "/blob/" = true) := hc
    have hfu : get_hf_download_url u = u := by
      rw [get_hf_download_url, if_neg hc2]
    rw [hfu]
    exact hfu

theorem get_hf_download_url_idempotent_witness :
    countMatches blobL
        ("https://huggingface.co/Ultralytics/YOLO11/blob/main/yolo11m.pt").data ≤ 1
    ∧ get_hf_download_url
        (get_hf_download_url "https://huggingface.co/Ultralytics/YOLO11/blob/main/yolo11m.pt")
      = get_hf_download_url "https://huggingface.co/Ultralytics/YOLO11/blob/main/yolo11m.pt" :=
  ⟨by decide, get_hf_download_url_idempotent _ (by decide)⟩
